import Mathlib

/-!
Shallow embedding of the WealthPulse statement-parsing and consolidation
subsystem (src/wealthpulse/parsers/*, src/wealthpulse/core/portfolio.py).

Python floats are modelled as exact rationals (`ℚ`); Python's
`round(x, 2)` is modelled by `round2` below; spreadsheet cells that may be
empty are modelled as `Option` values; dictionaries keyed by strings are
modelled as association lists in insertion order (the iteration order of a
Python `dict`).  String primitives are implemented over `String.data` so
that every definition evaluates inside the kernel.
-/

namespace WealthPulse

/-! ## Numeric model -/

/-- Model of Python `round(x, 2)`: round `x` to two decimal places,
as `⌊x * 100 + 1/2⌋ / 100`.  Python rounds exact halves to even while
this rounds them up, but no value appearing in the statements below sits
on a tie, so the two agree everywhere they are used. -/
def round2 (x : ℚ) : ℚ := ((⌊x * 100 + 1 / 2⌋ : ℤ) : ℚ) / 100

/-! ## String primitives  -/

/-- Kernel-computable model of Python `s.upper()` (ASCII letters, which is
all the inputs below use). -/
def strUpper (s : String) : String := ⟨s.data.map Char.toUpper⟩

/-- Kernel-computable model of Python `s.strip()`. -/
def strTrim (s : String) : String :=
  ⟨((s.data.dropWhile Char.isWhitespace).reverse.dropWhile Char.isWhitespace).reverse⟩

/-- Kernel-computable model of Python `s.endswith(suf)`. -/
def strEndsWith (s suf : String) : Bool := suf.data.isSuffixOf s.data

/-- Kernel-computable model of Python `s[:-n]` (drop the last `n`
characters). -/
def strDropRight (s : String) (n : Nat) : String := ⟨s.data.take (s.data.length - n)⟩

/-- Split a character list at every occurrence of `c`; model of Python
`s.split(c)` for a one-character separator. -/
def splitChar : List Char → Char → List (List Char)
  | [], _ => [[]]
  | x :: xs, c =>
    match splitChar xs c with
    | [] => [[]]
    | h :: t => if x = c then [] :: h :: t else (x :: h) :: t

/-- Model of Python `s.split(c)` for a one-character separator. -/
def strSplit (s : String) (c : Char) : List String :=
  (splitChar s.data c).map fun l => ⟨l⟩

/-- Model of Python `c.join(parts)` for a one-character separator
(used for `rsplit('-', 1)[0]`, i.e. re-joining all parts but the last). -/
def strJoin (c : Char) : List String → String
  | [] => ""
  | [x] => x
  | x :: xs => x ++ ⟨[c]⟩ ++ strJoin c xs

/-! ## Symbol normalization (parsers/base.py and parsers/upstox.py) -/

/-- Embeds `BaseParser._normalize_symbol` (parsers/base.py, lines 139-149):
strip whitespace; if the symbol contains a hyphen and the part after the
last hyphen has at most two characters and is not the reserved REIT suffix
`RR`, drop that trailing hyphenated suffix. -/
def normalize_symbol (symbol : String) : String :=
  let s := strTrim symbol
  let parts := strSplit s '-'
  let sfx := parts.getLastD ""
  if 2 ≤ parts.length ∧ sfx.length ≤ 2 ∧ sfx ≠ "RR" then
    strJoin '-' parts.dropLast
  else s

/-- Embeds the symbol pipeline of `UpstoxParser._parse_csv`
(parsers/upstox.py, lines 73-79): uppercase, apply `_normalize_symbol`,
then drop everything up to the last `:`, then drop one trailing `_EQ`. -/
def upstoxNormalize (raw : String) : String :=
  let s := normalize_symbol (strUpper raw)
  let s := (strSplit s ':').getLastD ""
  if strEndsWith s "_EQ" then strDropRight s 3 else s

/-- The normalization order as the specification words it (for comparison
with `upstoxNormalize`): uppercase, strip the exchange prefix up to the
colon, strip a `_EQ` suffix, and only then strip a short trailing
hyphenated suffix (at most 2 characters, `RR` preserved). -/
def specNormalize (raw : String) : String :=
  let s := strUpper raw
  let s := (strSplit s ':').getLastD ""
  let s := if strEndsWith s "_EQ" then strDropRight s 3 else s
  let parts := strSplit s '-'
  let sfx := parts.getLastD ""
  if 2 ≤ parts.length ∧ sfx.length ≤ 2 ∧ sfx ≠ "RR" then
    strJoin '-' parts.dropLast
  else s

/-! ## Shared record types (parsers/base.py) -/

/-- Embeds the `StockHolding` dataclass (parsers/base.py, lines 15-26). -/
structure StockHolding where
  symbol : String
  isin : String := ""
  quantity : ℚ := 0
  avg_price : ℚ := 0
  invested : ℚ := 0
  closing_price : ℚ := 0
  closing_value : ℚ := 0
  broker : String := ""
  sector : String := ""
deriving DecidableEq, Repr

/-- Embeds the `MutualFundHolding` dataclass (parsers/base.py, lines 29-41). -/
structure MutualFundHolding where
  name : String
  amc : String := ""
  category : String := ""
  sub_category : String := ""
  folio : String := ""
  invested : ℚ := 0
  current : ℚ := 0
  xirr : ℚ := 0
  units : ℚ := 0
  source : String := ""
deriving DecidableEq, Repr

/-- Embeds the `USHolding` dataclass (parsers/base.py, lines 44-54). -/
structure USHolding where
  symbol : String
  name : String := ""
  quantity : ℚ := 0
  avg_price_usd : ℚ := 0
  current_price_usd : ℚ := 0
  invested_usd : ℚ := 0
  value_usd : ℚ := 0
  source : String := ""
deriving DecidableEq, Repr

/-- Embeds the `NPSHolding` dataclass (parsers/base.py, lines 57-68). -/
structure NPSHolding where
  pran : String := ""
  scheme_name : String := ""
  fund_manager : String := ""
  asset_class : String := ""
  nav : ℚ := 0
  units : ℚ := 0
  contribution_total : ℚ := 0
  current_value : ℚ := 0
  statement_date : String := ""
deriving DecidableEq, Repr

/-- Embeds the `EPFOHolding` dataclass (parsers/base.py, lines 71-82). -/
structure EPFOHolding where
  uan : String := ""
  member_id : String := ""
  establishment : String := ""
  employee_share : ℚ := 0
  employer_share : ℚ := 0
  pension_share : ℚ := 0
  total_balance : ℚ := 0
  interest_earned : ℚ := 0
  statement_date : String := ""
deriving DecidableEq, Repr

/-- Embeds the `ParseResult` dataclass (parsers/base.py, lines 85-95). -/
structure ParseResult where
  stocks : List StockHolding := []
  mutual_funds : List MutualFundHolding := []
  us_holdings : List USHolding := []
  nps_holdings : List NPSHolding := []
  epfo_holdings : List EPFOHolding := []
  statement_date : Option String := none
  broker_name : String := ""
  errors : List String := []
deriving DecidableEq, Repr

/-! ## Stock consolidation (core/portfolio.py, `_consolidate`, lines 123-156) -/

/-- One entry of a consolidated stock's per-broker breakdown list
(portfolio.py, lines 142-149). -/
structure BrokerLot where
  broker : String
  qty : ℚ
  avg_price : ℚ
  invested : ℚ
  closing_price : ℚ
  closing_value : ℚ
deriving DecidableEq, Repr

/-- A consolidated per-symbol stock aggregate (portfolio.py, lines
131-138 and 151-156).  `blended_avg_price` is filled in by a second pass
(`blendStock`). -/
structure StockAgg where
  symbol : String
  total_qty : ℚ
  total_invested : ℚ
  total_closing_value : ℚ
  brokers : List BrokerLot
  blended_avg_price : ℚ := 0
deriving DecidableEq, Repr

def brokerLotOf (s : StockHolding) : BrokerLot :=
  ⟨s.broker, s.quantity, s.avg_price, s.invested, s.closing_price, s.closing_value⟩

/-- Add one stock lot into an aggregate (portfolio.py, lines 139-149). -/
def addLot (a : StockAgg) (s : StockHolding) : StockAgg :=
  { a with total_qty := a.total_qty + s.quantity,
           total_invested := a.total_invested + s.invested,
           total_closing_value := a.total_closing_value + s.closing_value,
           brokers := a.brokers ++ [brokerLotOf s] }

def emptyAgg (sym : String) : StockAgg := ⟨sym, 0, 0, 0, [], 0⟩

/-- One iteration of the stock consolidation loop (portfolio.py, lines
129-149): create the dict entry on first sight of a symbol (preserving
insertion order), then accumulate into it. -/
def updateStock (acc : List StockAgg) (s : StockHolding) : List StockAgg :=
  if acc.any (fun a => a.symbol == s.symbol) then
    acc.map fun a => if a.symbol == s.symbol then addLot a s else a
  else acc ++ [addLot (emptyAgg s.symbol) s]

/-- The blended-average-price pass (portfolio.py, lines 151-156). -/
def blendStock (a : StockAgg) : StockAgg :=
  { a with blended_avg_price :=
      if 0 < a.total_qty then round2 (a.total_invested / a.total_qty) else 0 }

def consolidateStocks (stocks : List StockHolding) : List StockAgg :=
  (stocks.foldl updateStock []).map blendStock

/-- `all_stocks` (portfolio.py, lines 124-126): concatenate the stock
lists of the parse results in order. -/
def allStocks (results : List ParseResult) : List StockHolding :=
  (results.map (·.stocks)).flatten

/-! ## Mutual funds inside `_consolidate` (portfolio.py, lines 158-171) -/

/-- One row of the consolidated `mutual_funds` list built by
`_consolidate` (portfolio.py, lines 162-171). -/
structure MFRow where
  name : String
  amc : String
  category : String
  type : String
  invested : ℚ
  current : ℚ
  xirr : ℚ
  num_folios : ℚ
deriving DecidableEq, Repr

/-- Conversion of one `MutualFundHolding` into a consolidated row
(portfolio.py, lines 162-171); `mf.sub_category or mf.category` falls
back when the sub-category is empty. -/
def mfRowOf (mf : MutualFundHolding) : MFRow :=
  ⟨mf.name, mf.amc,
   (if mf.sub_category = "" then mf.category else mf.sub_category),
   mf.category, mf.invested, mf.current, mf.xirr, 1⟩

def allMfs (results : List ParseResult) : List MFRow :=
  (results.map (fun r => r.mutual_funds.map mfRowOf)).flatten

/-! ## US holdings consolidation (portfolio.py, lines 173-193) -/

structure USSource where
  source : String
  qty : ℚ
  value_usd : ℚ
deriving DecidableEq, Repr

/-- A consolidated per-ticker US aggregate (portfolio.py, lines 178-193).
`total_invested_usd` is initialized to zero (line 183) and no statement
in the loop adds to it (lines 187-193). -/
structure USAgg where
  symbol : String
  name : String
  total_qty : ℚ
  total_invested_usd : ℚ
  total_value_usd : ℚ
  sources : List USSource
deriving DecidableEq, Repr

/-- Accumulate one US lot (portfolio.py, lines 187-193): only
`total_qty` and `total_value_usd` are summed. -/
def addUS (a : USAgg) (h : USHolding) : USAgg :=
  { a with total_qty := a.total_qty + h.quantity,
           total_value_usd := a.total_value_usd + h.value_usd,
           sources := a.sources ++ [⟨h.source, h.quantity, h.value_usd⟩] }

def updateUS (acc : List USAgg) (h : USHolding) : List USAgg :=
  if acc.any (fun a => a.symbol == h.symbol) then
    acc.map fun a => if a.symbol == h.symbol then addUS a h else a
  else acc ++ [addUS ⟨h.symbol, h.name, 0, 0, 0, []⟩ h]

def consolidateUS (hs : List USHolding) : List USAgg := hs.foldl updateUS []

def allUS (results : List ParseResult) : List USHolding :=
  (results.map (·.us_holdings)).flatten

/-! ## NPS and EPFO inside `_consolidate` (portfolio.py, lines 195-225):
entries are appended verbatim (each dict copies the dataclass
field-for-field), with no cross-source merge. -/

def allNPS (results : List ParseResult) : List NPSHolding :=
  (results.map (·.nps_holdings)).flatten

def allEPFO (results : List ParseResult) : List EPFOHolding :=
  (results.map (·.epfo_holdings)).flatten

/-! ## Verdicts (portfolio.py, lines 227-244) -/

/-- A per-symbol user verdict record; the shape of the default inserted
for new stocks (portfolio.py, lines 236-240). -/
structure Verdict where
  verdict : String
  risk : String
  sector : String
  pe : ℚ := 0
  roe : ℚ := 0
  roce : ℚ := 0
  target_1m : ℚ := 0
  target_1y : ℚ := 0
  target_5y : ℚ := 0
deriving DecidableEq, Repr

/-- The default verdict for newly seen stocks (portfolio.py, lines
236-240). -/
def defaultVerdict : Verdict := ⟨"HOLD", "Medium", "Other", 0, 0, 0, 0, 0, 0⟩

/-- Model of `verdicts[sym] = v` on a Python dict held as an association
list in insertion order: replace the binding if the key exists, else
append it. -/
def setKey (m : List (String × Verdict)) (k : String) (v : Verdict) :
    List (String × Verdict) :=
  if m.any (fun kv => kv.1 == k) then
    m.map fun kv => if kv.1 == k then (k, v) else kv
  else m ++ [(k, v)]

/-- Embeds the verdict-map construction (portfolio.py, lines 227-241):
copy the stored verdicts, overlay the configuration verdicts, then insert
the default for every consolidated symbol still absent. -/
def buildVerdicts (existing configV : List (String × Verdict)) (syms : List String) :
    List (String × Verdict) :=
  let m := configV.foldl (fun m kv => setKey m kv.1 kv.2) existing
  syms.foldl (fun m s => if (m.lookup s).isSome then m else m ++ [(s, defaultVerdict)]) m

/-! ## The consolidation engine and orchestrator
(portfolio.py, `_consolidate` lines 115-279 and `parse_all_statements`
lines 59-112) -/

/-- The parts of the portfolio dict built by `_consolidate`
(portfolio.py, lines 261-279) that the claims are about. -/
structure Portfolio where
  stocks : List StockAgg
  stock_verdicts : List (String × Verdict)
  mutual_funds : List MFRow
  us_holdings : List USAgg
  nps_holdings : List NPSHolding
  epfo_holdings : List EPFOHolding
  non_equity : List (String × ℚ)
deriving DecidableEq, Repr

/-- Embeds `_consolidate` (portfolio.py, lines 115-279).  `existingV` is
the stored verdict map recovered by `_load_existing`, `configV` the
configuration's verdict overrides, `nonEquity` the static balances. -/
def consolidate (existingV configV : List (String × Verdict))
    (nonEquity : List (String × ℚ)) (results : List ParseResult) : Portfolio :=
  let cs := consolidateStocks (allStocks results)
  { stocks := cs,
    stock_verdicts := buildVerdicts existingV configV (cs.map (·.symbol)),
    mutual_funds := allMfs results,
    us_holdings := consolidateUS (allUS results),
    nps_holdings := allNPS results,
    epfo_holdings := allEPFO results,
    non_equity := nonEquity }

/-- Embeds the collection loop of `parse_all_statements` (portfolio.py,
lines 90-109): an outcome is appended to `results` only when its error
list is empty; an errored outcome is logged and skipped, and the loop
continues with the remaining adapters. -/
def selectResults : List ParseResult → List ParseResult
  | [] => []
  | r :: rest => if r.errors.isEmpty then r :: selectResults rest else selectResults rest

/-- Embeds `parse_all_statements` (portfolio.py, lines 59-112): parse
outcomes are collected (errored ones skipped) and handed to
`_consolidate`. -/
def parse_all_statements (existingV configV : List (String × Verdict))
    (nonEquity : List (String × ℚ)) (outcomes : List ParseResult) : Portfolio :=
  consolidate existingV configV nonEquity (selectResults outcomes)

/-! ## Mutual fund statement consolidation
(parsers/mutual_funds.py, `MutualFundParser.parse`, lines 74-99) -/

/-- The zero-initialized dict entry created on first sight of a scheme
name (mutual_funds.py, lines 77-82). -/
def mfInit (mf : MutualFundHolding) : MutualFundHolding :=
  { mf with invested := 0, current := 0, xirr := 0, units := 0 }

/-- One accumulation step (mutual_funds.py, lines 83-92): the running
XIRR is replaced by the invested-weighted combination rounded to two
decimals (using the old invested amount as the old weight), guarded by
`total_weight > 0`; then invested, current and units are added. -/
def mfUpdate (c mf : MutualFundHolding) : MutualFundHolding :=
  let tw := c.invested + mf.invested
  let x := if 0 < tw then round2 ((c.xirr * c.invested + mf.xirr * mf.invested) / tw)
           else c.xirr
  { c with xirr := x,
           invested := c.invested + mf.invested,
           current := c.current + mf.current,
           units := c.units + mf.units }

/-- One iteration of the folio-consolidation loop (mutual_funds.py,
lines 76-92). -/
def mfInsert (acc : List MutualFundHolding) (mf : MutualFundHolding) :
    List MutualFundHolding :=
  if acc.any (fun c => c.name == mf.name) then
    acc.map fun c => if c.name == mf.name then mfUpdate c mf else c
  else acc ++ [mfUpdate (mfInit mf) mf]

/-- Embeds the consolidation tail of `MutualFundParser.parse`
(mutual_funds.py, lines 74-99), including the final rounding of invested
and current (lines 96-98). -/
def mfConsolidate (raw : List MutualFundHolding) : List MutualFundHolding :=
  (raw.foldl mfInsert []).map fun mf =>
    { mf with invested := round2 mf.invested, current := round2 mf.current }

/-- The combined XIRR as the specification words it (for comparison with
`mfConsolidate`): the exact invested-amount-weighted average of the
contributing lots, 0 when the total invested is 0. -/
def mfWeightedXirr (lots : List MutualFundHolding) : ℚ :=
  let tw := (lots.map (·.invested)).sum
  if tw = 0 then 0 else (lots.map fun l => l.xirr * l.invested).sum / tw

/-! ## Zerodha row parsing (parsers/zerodha.py, lines 50-77) -/

/-- One spreadsheet data row as `ZerodhaParser.parse` reads it: column B
(symbol, possibly empty), C (ISIN), D (sector), E (qty available),
J (average price), K (previous closing price).  Empty cells are `none`
and numeric cells coerce with `float(cell or 0)`. -/
structure ZRow where
  symbol : Option String := none
  isin : Option String := none
  sector : Option String := none
  qty : Option ℚ := none
  avg_price : Option ℚ := none
  closing_price : Option ℚ := none
deriving DecidableEq, Repr

/-- Embeds the row body of `ZerodhaParser.parse` (zerodha.py, lines
50-75): a row with a blank symbol is skipped; there is no check on the
sign of the quantity. -/
def zerodhaRow (row : ZRow) : Option StockHolding :=
  match row.symbol with
  | none => none
  | some raw =>
    if strTrim raw = "" then none
    else
      let qty := row.qty.getD 0
      let avg := row.avg_price.getD 0
      let cp := row.closing_price.getD 0
      some { symbol := normalize_symbol (strTrim raw),
             isin := row.isin.getD "",
             quantity := qty,
             avg_price := round2 avg,
             invested := round2 (qty * avg),
             closing_price := round2 cp,
             closing_value := round2 (round2 (qty * cp)),
             broker := "Zerodha",
             sector := row.sector.getD "" }

def zerodhaParseRows (rows : List ZRow) : List StockHolding :=
  rows.filterMap zerodhaRow

/-! ## Upstox CSV row parsing (parsers/upstox.py, lines 61-120) -/

/-- One CSV row of `UpstoxParser._parse_csv` after column resolution:
`symbol_raw` is the stripped instrument cell (`none` when no symbol
column had a value, line 70), and the numeric cells have been coerced by
`_safe_float`. -/
structure URow where
  symbol_raw : Option String := none
  qty : ℚ := 0
  avg_price : ℚ := 0
  ltp : ℚ := 0
  isin : String := ""
deriving DecidableEq, Repr

/-- Embeds the row body of `UpstoxParser._parse_csv` (upstox.py, lines
70-120): rows without a symbol are skipped, rows with `qty <= 0` are
skipped (line 108). -/
def upstoxRow (row : URow) : Option StockHolding :=
  match row.symbol_raw with
  | none => none
  | some raw =>
    if row.qty ≤ 0 then none
    else some { symbol := upstoxNormalize raw,
                isin := row.isin,
                quantity := row.qty,
                avg_price := round2 row.avg_price,
                invested := round2 (row.qty * row.avg_price),
                closing_price := round2 row.ltp,
                closing_value := round2 (row.qty * row.ltp),
                broker := "Upstox",
                sector := "" }

def upstoxParseRows (rows : List URow) : List StockHolding :=
  rows.filterMap upstoxRow

/-! ## EPFO PDF extraction (parsers/epfo.py, `_parse_pdf`, lines 59-183)

The regular-expression layer is external: the embedding receives, for
each pattern, the list of its parsed match amounts in document order
(`re.search` consumes the first entry, `re.findall(...)[-1]` the last). -/

structure EPFOInput where
  uan : String := ""
  member_id : String := ""
  establishment : String := ""
  statement_date : String := ""
  closing_matches : List ℚ := []
  ee_matches : List ℚ := []
  er_matches : List ℚ := []
  pension_matches : List ℚ := []
  amount_rows : List (ℚ × ℚ × ℚ) := []
  interest_matches : List ℚ := []
deriving DecidableEq, Repr

/-- Strategy 1 of `EPFOParser._parse_pdf` (epfo.py, lines 100-109):
`re.search` of the closing-balance pattern takes the FIRST match in
document order (0 when there is none or it parses to 0). -/
def epfoTotal0 (inp : EPFOInput) : ℚ := inp.closing_matches.headD 0

/-- Strategies 2 and 3 of `EPFOParser._parse_pdf` (epfo.py, lines
111-145): each share is the LAST match of its pattern
(`re.findall(...)[-1]`); when both the employee share and the closing
balance are 0, fall back to the last 3-amount tabular row, accepted only
when each of its values exceeds the plausibility floor of 100. -/
def epfoShares (inp : EPFOInput) : ℚ × ℚ × ℚ :=
  let ee0 := (inp.ee_matches.getLast?).getD 0
  let er0 := (inp.er_matches.getLast?).getD 0
  let pn0 := (inp.pension_matches.getLast?).getD 0
  if ee0 = 0 ∧ epfoTotal0 inp = 0 then
    match inp.amount_rows.getLast? with
    | some (a, b, c) =>
      if 100 < a ∧ 100 < b ∧ 100 < c then (a, b, c) else (ee0, er0, pn0)
    | none => (ee0, er0, pn0)
  else (ee0, er0, pn0)

/-- The reported total balance (epfo.py, lines 147-148): the closing
balance when found, else the sum of the three shares. -/
def epfoTotal (inp : EPFOInput) : ℚ :=
  if epfoTotal0 inp = 0 then
    (epfoShares inp).1 + (epfoShares inp).2.1 + (epfoShares inp).2.2
  else epfoTotal0 inp

/-- Embeds the numeric pipeline of `EPFOParser._parse_pdf` (epfo.py,
lines 96-183): a holding is emitted only when the total balance or the
employee share is positive, otherwise zero records plus an explicit
error are returned. -/
def epfo_parse_pdf (inp : EPFOInput) : List EPFOHolding × List String :=
  if 0 < epfoTotal inp ∨ 0 < (epfoShares inp).1 then
    ([{ uan := inp.uan, member_id := inp.member_id,
        establishment := inp.establishment,
        employee_share := (epfoShares inp).1,
        employer_share := (epfoShares inp).2.1,
        pension_share := (epfoShares inp).2.2,
        total_balance := epfoTotal inp,
        interest_earned := inp.interest_matches.headD 0,
        statement_date := inp.statement_date }], [])
  else
    ([], ["Could not extract EPFO balance from PDF. Try downloading a fresh passbook from passbook.epfindia.gov.in"])

/-! ## NPS PDF extraction (parsers/nps.py, `NPSParser.parse`, lines
35-185), same modelling of the regex layer -/

/-- Embeds the asset-class value selection (nps.py, lines 97-109):
`re.search` yields the first match of the pattern; it is accepted only
above the plausibility floor of 100. -/
def npsClassPick (ms : List ℚ) : Option ℚ :=
  match ms.head? with
  | some v => if 100 < v then some v else none
  | none => none

/-- Embeds strategy 3 of `NPSParser.parse` (nps.py, lines 119-132): walk
the `findall` matches in document order and take the first one whose
value exceeds 1000. -/
def npsTotalPick (ms : List ℚ) : Option ℚ :=
  ms.find? fun v => decide (1000 < v)

/-- Embeds the scheme-holding construction (nps.py, lines 102-108). -/
def npsSchemeHolding (pran tier ac date : String) (ms : List ℚ) :
    Option NPSHolding :=
  (npsClassPick ms).map fun v =>
    { pran := pran, scheme_name := tier, asset_class := ac,
      current_value := v, statement_date := date }

/-- Embeds the tail of `NPSParser.parse` (nps.py, lines 177-184): an
empty holdings list yields zero records plus an explicit error. -/
def npsFinalize (holdings : List NPSHolding) : List NPSHolding × List String :=
  if holdings.isEmpty then
    ([], ["Could not extract NPS data from PDF. The PDF format may differ - try downloading a fresh statement from npscra.nsdl.co.in"])
  else (holdings, [])

/-- The match selection as the specification words it (for comparison):
the last match in document order, 0 when there is none. -/
def specLastMatch (ms : List ℚ) : ℚ := (ms.getLast?).getD 0

/-! ## Snapshot store (portfolio.py, `save_portfolio`, lines 313-326)

`save_portfolio` is modelled as the sequence of file-system operations it
performs on the target path: `open(output_path, "w")` truncates the file
in place, then `json.dump` writes the serialized text.  `fileStates`
lists every content the file passes through, so an interruption at any
point leaves the file holding one of these states. -/

inductive FileOp where
  | truncate
  | writeAll (content : String)
deriving DecidableEq, Repr

def applyOp (_file : String) : FileOp → String
  | .truncate => ""
  | .writeAll c => c

/-- The operations `save_portfolio` performs on the target file:
`open(output_path, "w")` then `json.dump(portfolio, f)` (portfolio.py,
lines 319-320); there is no temporary file and no rename. -/
def save_portfolio_ops (serialized : String) : List FileOp :=
  [.truncate, .writeAll serialized]

/-- Every content the target file holds during the save, starting from
the prior snapshot's content. -/
def fileStates (initial : String) (ops : List FileOp) : List String :=
  ops.scanl applyOp initial

/-- Embeds `save_portfolio` (portfolio.py, lines 313-326): final content
of the target file. -/
def save_portfolio (prior serialized : String) : String :=
  (fileStates prior (save_portfolio_ops serialized)).getLastD prior

/-! ## Generic keyed-dict machinery

`updateStock`, `updateUS` and `mfInsert` all implement the same Python
idiom: `if key not in dict: dict[key] = fresh; accumulate into
dict[key]`, over a dict kept in insertion order.  `kUpdate` is that shape
once and for all; the three loop bodies are definitionally instances of
it (see `updateStock_eq_kUpdate` and friends), so the lookup lemmas are
proved once. -/

/-- Dict lookup on an insertion-ordered association of keyed records. -/
def klookup {α : Type} (key : α → String) (l : List α) (sym : String) : Option α :=
  l.find? fun a => key a == sym

/-- The generic shape of the consolidation loop bodies. -/
def kUpdate {α β : Type} (key : α → String) (keyOf : β → String)
    (add : α → β → α) (init : β → α) (acc : List α) (b : β) : List α :=
  if acc.any (fun a => key a == keyOf b) then
    acc.map fun a => if key a == keyOf b then add a b else a
  else acc ++ [add (init b) b]

/-- The specification-side per-key sum: total of `f` over the records
whose key is `sym`. -/
def ksum {β : Type} (keyOf : β → String) (f : β → ℚ) (sym : String) (bs : List β) : ℚ :=
  ((bs.filter fun b => keyOf b == sym).map f).sum

/-- The numeric field of the aggregate stored under `sym`, 0 when the
key is absent. -/
def kfield {α : Type} (key : α → String) (F : α → ℚ) (l : List α) (sym : String) : ℚ :=
  ((klookup key l sym).map F).getD 0

/-! # Lemmas -/

theorem abs_round2_sub_le (x : ℚ) : |round2 x - x| ≤ 1 / 200 := by
  rw [round2]
  have h1 : ((⌊x * 100 + 1 / 2⌋ : ℤ) : ℚ) ≤ x * 100 + 1 / 2 := Int.floor_le _
  have h2 : x * 100 + 1 / 2 - 1 < ((⌊x * 100 + 1 / 2⌋ : ℤ) : ℚ) := Int.sub_one_lt_floor _
  rw [abs_le]
  constructor <;> [linarith; linarith]

theorem klookup_nil {α : Type} (key : α → String) (sym : String) :
    klookup key [] sym = none := rfl

theorem klookup_cons {α : Type} (key : α → String) (a : α) (l : List α) (sym : String) :
    klookup key (a :: l) sym = if key a = sym then some a else klookup key l sym := by
  by_cases h : key a = sym
  · rw [if_pos h]
    exact List.find?_cons_of_pos _ (by simp [h])
  · rw [if_neg h]
    exact List.find?_cons_of_neg _ (by simp [h])

theorem klookup_some {α : Type} (key : α → String) {l : List α} {sym : String} {a : α}
    (h : klookup key l sym = some a) : key a = sym := by
  have := List.find?_some h
  simpa using this

theorem klookup_append {α : Type} (key : α → String) (l1 l2 : List α) (sym : String) :
    klookup key (l1 ++ l2) sym =
      match klookup key l1 sym with
      | some a => some a
      | none => klookup key l2 sym := by
  induction l1 with
  | nil => simp [klookup_nil]
  | cons a t ih =>
    by_cases h : key a = sym
    · simp [klookup_cons, h]
    · simp only [List.cons_append, klookup_cons, h, if_false, ih, if_neg h]

theorem klookup_map_pres {α : Type} (key : α → String) (g : α → α)
    (hg : ∀ a, key (g a) = key a) (l : List α) (sym : String) :
    klookup key (l.map g) sym = (klookup key l sym).map g := by
  induction l with
  | nil => simp [klookup_nil]
  | cons a t ih =>
    by_cases h : key a = sym
    · simp [List.map_cons, klookup_cons, hg, h]
    · simp [List.map_cons, klookup_cons, hg, h, ih]

theorem klookup_isSome_eq_any {α : Type} (key : α → String) (l : List α) (t : String) :
    (klookup key l t).isSome = l.any fun a => key a == t := by
  induction l with
  | nil => rfl
  | cons a s ih => by_cases h : key a = t <;> simp [klookup_cons, h, ih]

theorem klookup_of_any_false {α : Type} (key : α → String) {l : List α} {t : String}
    (h : l.any (fun a => key a == t) = false) : klookup key l t = none := by
  have := klookup_isSome_eq_any key l t
  rw [h] at this
  exact Option.not_isSome_iff_eq_none.mp (by simp [this])

theorem klookup_kUpdate {α β : Type} (key : α → String) (keyOf : β → String)
    (add : α → β → α) (init : β → α)
    (hadd : ∀ a b, key (add a b) = key a) (hinit : ∀ b, key (init b) = keyOf b)
    (acc : List α) (b : β) (sym : String) :
    klookup key (kUpdate key keyOf add init acc b) sym =
      if keyOf b = sym then some (add ((klookup key acc sym).getD (init b)) b)
      else klookup key acc sym := by
  unfold kUpdate
  by_cases hany : acc.any (fun a => key a == keyOf b)
  · rw [if_pos hany]
    rw [klookup_map_pres key _
      (fun a => by by_cases h : key a = keyOf b <;> simp [h, hadd])]
    by_cases hb : keyOf b = sym
    · subst hb
      have hs : (klookup key acc (keyOf b)).isSome := by
        rw [klookup_isSome_eq_any]; exact hany
      obtain ⟨a, ha⟩ := Option.isSome_iff_exists.mp hs
      have hk := klookup_some key ha
      rw [ha, if_pos rfl]
      simp [hk]
    · rw [if_neg hb]
      cases ha : klookup key acc sym with
      | none => simp
      | some a =>
        have hk := klookup_some key ha
        have : ¬ key a = keyOf b := by rw [hk]; exact fun hc => hb hc.symm
        simp [this]
  · rw [if_neg hany]
    have hnone : klookup key acc (keyOf b) = none :=
      klookup_of_any_false key (by simpa using hany)
    rw [klookup_append]
    by_cases hb : keyOf b = sym
    · subst hb
      rw [hnone]
      simp [klookup_cons, hadd, hinit]
    · cases ha : klookup key acc sym with
      | none =>
        have : ¬ key (add (init b) b) = sym := by rw [hadd, hinit]; exact hb
        simp [klookup_cons, this, hb, klookup_nil]
      | some a => simp [hb]

theorem kfield_kUpdate {α β : Type} (key : α → String) (keyOf : β → String)
    (add : α → β → α) (init : β → α) (F : α → ℚ) (f : β → ℚ)
    (hadd : ∀ a b, key (add a b) = key a) (hinit : ∀ b, key (init b) = keyOf b)
    (hF : ∀ a b, F (add a b) = F a + f b) (hF0 : ∀ b, F (init b) = 0)
    (acc : List α) (b : β) (sym : String) :
    kfield key F (kUpdate key keyOf add init acc b) sym =
      kfield key F acc sym + if keyOf b = sym then f b else 0 := by
  unfold kfield
  rw [klookup_kUpdate key keyOf add init hadd hinit]
  by_cases hb : keyOf b = sym
  · rw [if_pos hb, if_pos hb]
    cases ha : klookup key acc sym with
    | none => simp [hF, hF0]
    | some a => simp [hF]
  · simp [hb]

theorem ksum_nil {β : Type} (keyOf : β → String) (f : β → ℚ) (sym : String) :
    ksum keyOf f sym [] = 0 := rfl

theorem ksum_cons {β : Type} (keyOf : β → String) (f : β → ℚ) (sym : String)
    (b : β) (t : List β) :
    ksum keyOf f sym (b :: t) = (if keyOf b = sym then f b else 0) + ksum keyOf f sym t := by
  by_cases hb : keyOf b = sym <;> simp [ksum, List.filter_cons, hb]

theorem kfield_foldl {α β : Type} (key : α → String) (keyOf : β → String)
    (add : α → β → α) (init : β → α) (F : α → ℚ) (f : β → ℚ)
    (hadd : ∀ a b, key (add a b) = key a) (hinit : ∀ b, key (init b) = keyOf b)
    (hF : ∀ a b, F (add a b) = F a + f b) (hF0 : ∀ b, F (init b) = 0)
    (bs : List β) : ∀ (acc : List α) (sym : String),
    kfield key F (bs.foldl (kUpdate key keyOf add init) acc) sym =
      kfield key F acc sym + ksum keyOf f sym bs := by
  induction bs with
  | nil => intro acc sym; simp [ksum_nil]
  | cons b t ih =>
    intro acc sym
    rw [List.foldl_cons, ih,
      kfield_kUpdate key keyOf add init F f hadd hinit hF hF0, ksum_cons]
    ring

theorem klookup_foldl_isSome {α β : Type} (key : α → String) (keyOf : β → String)
    (add : α → β → α) (init : β → α)
    (hadd : ∀ a b, key (add a b) = key a) (hinit : ∀ b, key (init b) = keyOf b)
    (bs : List β) : ∀ (acc : List α) (sym : String),
    (klookup key (bs.foldl (kUpdate key keyOf add init) acc) sym).isSome =
      ((klookup key acc sym).isSome || bs.any fun b => keyOf b == sym) := by
  induction bs with
  | nil => intro acc sym; simp
  | cons b t ih =>
    intro acc sym
    rw [List.foldl_cons, ih]
    by_cases hb : keyOf b = sym
    · simp [klookup_kUpdate key keyOf add init hadd hinit, hb]
    · have : (keyOf b == sym) = false := by simp [hb]
      simp [klookup_kUpdate key keyOf add init hadd hinit, hb, this]

theorem ksum_perm {β : Type} (keyOf : β → String) (f : β → ℚ) (sym : String)
    {l1 l2 : List β} (h : l1.Perm l2) : ksum keyOf f sym l1 = ksum keyOf f sym l2 :=
  List.Perm.sum_eq ((h.filter _).map f)

theorem any_perm {γ : Type} (p : γ → Bool) {l1 l2 : List γ} (h : l1.Perm l2) :
    l1.any p = l2.any p := by
  cases h1 : l1.any p <;> cases h2 : l2.any p <;> try rfl
  · obtain ⟨x, hx, hpx⟩ := List.any_eq_true.mp h2
    have : l1.any p = true := List.any_eq_true.mpr ⟨x, h.mem_iff.mpr hx, hpx⟩
    rw [h1] at this
    exact absurd this (by simp)
  · obtain ⟨x, hx, hpx⟩ := List.any_eq_true.mp h1
    have : l2.any p = true := List.any_eq_true.mpr ⟨x, h.mem_iff.mp hx, hpx⟩
    rw [h2] at this
    exact absurd this (by simp)

theorem ksum_zero {β : Type} (keyOf : β → String) (sym : String) (bs : List β) :
    ksum keyOf (fun _ => 0) sym bs = 0 := by
  induction bs with
  | nil => rfl
  | cons b t ih => rw [ksum_cons, ih]; by_cases hb : keyOf b = sym <;> simp [hb]

/-! ## Instantiation for the three consolidation loops -/

theorem updateStock_eq_kUpdate :
    updateStock = kUpdate (fun a => a.symbol) (fun s => s.symbol) addLot
      (fun s => emptyAgg s.symbol) := rfl

theorem updateUS_eq_kUpdate :
    updateUS = kUpdate (fun a => a.symbol) (fun h => h.symbol) addUS
      (fun h => ⟨h.symbol, h.name, 0, 0, 0, []⟩) := rfl

theorem mfInsert_eq_kUpdate :
    mfInsert = kUpdate (fun c => c.name) (fun mf => mf.name) mfUpdate mfInit := rfl

/-- Characterization of a consolidated stock aggregate: its totals are
the per-symbol sums over the input lots and the blended price is the
rounded ratio (or 0). -/
theorem consolidateStocks_lookup_char (stocks : List StockHolding) (sym : String)
    (agg : StockAgg)
    (h : klookup (fun a => a.symbol) (consolidateStocks stocks) sym = some agg) :
    agg.total_qty = ksum (fun s => s.symbol) (fun s => s.quantity) sym stocks ∧
    agg.total_invested = ksum (fun s => s.symbol) (fun s => s.invested) sym stocks ∧
    agg.total_closing_value = ksum (fun s => s.symbol) (fun s => s.closing_value) sym stocks ∧
    agg.blended_avg_price =
      (if 0 < agg.total_qty then round2 (agg.total_invested / agg.total_qty) else 0) := by
  have hmap : klookup (fun a => a.symbol) (consolidateStocks stocks) sym =
      (klookup (fun a => a.symbol) (stocks.foldl updateStock []) sym).map blendStock := by
    unfold consolidateStocks
    exact klookup_map_pres (fun a : StockAgg => a.symbol) blendStock (fun a => rfl) _ _
  rw [hmap] at h
  rw [updateStock_eq_kUpdate] at h
  cases hbase : klookup (fun a => a.symbol)
      (stocks.foldl (kUpdate (fun a => a.symbol) (fun s => s.symbol) addLot
        (fun s => emptyAgg s.symbol)) []) sym with
  | none => rw [hbase] at h; simp at h
  | some b =>
    rw [hbase] at h
    have hab : blendStock b = agg := by simpa using h
    have hq := kfield_foldl (fun a : StockAgg => a.symbol) (fun s : StockHolding => s.symbol)
      addLot (fun s => emptyAgg s.symbol) (fun a => a.total_qty) (fun s => s.quantity)
      (fun _ _ => rfl) (fun _ => rfl) (fun _ _ => rfl) (fun _ => rfl) stocks [] sym
    have hi := kfield_foldl (fun a : StockAgg => a.symbol) (fun s : StockHolding => s.symbol)
      addLot (fun s => emptyAgg s.symbol) (fun a => a.total_invested) (fun s => s.invested)
      (fun _ _ => rfl) (fun _ => rfl) (fun _ _ => rfl) (fun _ => rfl) stocks [] sym
    have hc := kfield_foldl (fun a : StockAgg => a.symbol) (fun s : StockHolding => s.symbol)
      addLot (fun s => emptyAgg s.symbol) (fun a => a.total_closing_value)
      (fun s => s.closing_value)
      (fun _ _ => rfl) (fun _ => rfl) (fun _ _ => rfl) (fun _ => rfl) stocks [] sym
    simp only [kfield, hbase, klookup_nil] at hq hi hc
    simp at hq hi hc
    rw [← hab]
    exact ⟨hq, hi, hc, rfl⟩

/-- A symbol is present in the consolidated stock dict exactly when one
of the input lots carries it. -/
theorem consolidateStocks_isSome (stocks : List StockHolding) (sym : String) :
    (klookup (fun a => a.symbol) (consolidateStocks stocks) sym).isSome =
      stocks.any fun s => s.symbol == sym := by
  have hmap : klookup (fun a => a.symbol) (consolidateStocks stocks) sym =
      (klookup (fun a => a.symbol) (stocks.foldl updateStock []) sym).map blendStock := by
    unfold consolidateStocks
    exact klookup_map_pres (fun a : StockAgg => a.symbol) blendStock (fun a => rfl) _ _
  have hdrop : ∀ (o : Option StockAgg), (o.map blendStock).isSome = o.isSome := by
    intro o; cases o <;> rfl
  rw [hmap, hdrop, updateStock_eq_kUpdate,
    klookup_foldl_isSome (fun a : StockAgg => a.symbol) (fun s : StockHolding => s.symbol)
      addLot (fun s => emptyAgg s.symbol) (fun _ _ => rfl) (fun _ => rfl) stocks [] sym]
  simp [klookup_nil]

/-- Characterization of a consolidated US aggregate: quantity and USD
value are the per-ticker sums, and `total_invested_usd` is always 0. -/
theorem consolidateUS_lookup_char (hs : List USHolding) (sym : String) (agg : USAgg)
    (h : klookup (fun a => a.symbol) (consolidateUS hs) sym = some agg) :
    agg.total_invested_usd = 0 ∧
    agg.total_qty = ksum (fun u => u.symbol) (fun u => u.quantity) sym hs ∧
    agg.total_value_usd = ksum (fun u => u.symbol) (fun u => u.value_usd) sym hs := by
  rw [consolidateUS, updateUS_eq_kUpdate] at h
  have hinv := kfield_foldl (fun a : USAgg => a.symbol) (fun u : USHolding => u.symbol)
    addUS (fun h => ⟨h.symbol, h.name, 0, 0, 0, []⟩) (fun a => a.total_invested_usd)
    (fun _ => 0)
    (fun _ _ => rfl) (fun _ => rfl) (fun a b => by simp [addUS]) (fun _ => rfl) hs [] sym
  have hq := kfield_foldl (fun a : USAgg => a.symbol) (fun u : USHolding => u.symbol)
    addUS (fun h => ⟨h.symbol, h.name, 0, 0, 0, []⟩) (fun a => a.total_qty)
    (fun u => u.quantity)
    (fun _ _ => rfl) (fun _ => rfl) (fun _ _ => rfl) (fun _ => rfl) hs [] sym
  have hv := kfield_foldl (fun a : USAgg => a.symbol) (fun u : USHolding => u.symbol)
    addUS (fun h => ⟨h.symbol, h.name, 0, 0, 0, []⟩) (fun a => a.total_value_usd)
    (fun u => u.value_usd)
    (fun _ _ => rfl) (fun _ => rfl) (fun _ _ => rfl) (fun _ => rfl) hs [] sym
  simp only [kfield, h, klookup_nil] at hinv hq hv
  simp at hinv hq hv
  rw [ksum_zero] at hinv
  exact ⟨hinv, hq, hv⟩

/-- A ticker is present in the consolidated US dict exactly when one of
the input lots carries it. -/
theorem consolidateUS_isSome (hs : List USHolding) (sym : String) :
    (klookup (fun a => a.symbol) (consolidateUS hs) sym).isSome =
      hs.any fun u => u.symbol == sym := by
  rw [consolidateUS, updateUS_eq_kUpdate,
    klookup_foldl_isSome (fun a : USAgg => a.symbol) (fun u : USHolding => u.symbol)
      addUS (fun h => ⟨h.symbol, h.name, 0, 0, 0, []⟩) (fun _ _ => rfl) (fun _ => rfl)
      hs [] sym]
  simp [klookup_nil]

/-! # Claims -/

/-- C1: for every consolidated stock group, the reported totals are the
sums of quantity, invested and closing value over the contributing lots
with that symbol; the blended average price is the total invested over
the total quantity rounded to two decimals when the total quantity is
positive, and 0 when it is zero; hence for positive total quantity the
blended price times the quantity matches the total invested within
`0.01` times the quantity. -/
theorem stock_consolidation_correct (stocks : List StockHolding) (sym : String)
    (agg : StockAgg)
    (h : klookup (fun a => a.symbol) (consolidateStocks stocks) sym = some agg) :
    agg.total_qty = ksum (fun s => s.symbol) (fun s => s.quantity) sym stocks ∧
    agg.total_invested = ksum (fun s => s.symbol) (fun s => s.invested) sym stocks ∧
    agg.total_closing_value = ksum (fun s => s.symbol) (fun s => s.closing_value) sym stocks ∧
    (0 < agg.total_qty →
      agg.blended_avg_price = round2 (agg.total_invested / agg.total_qty)) ∧
    (agg.total_qty = 0 → agg.blended_avg_price = 0) ∧
    (0 < agg.total_qty →
      |agg.blended_avg_price * agg.total_qty - agg.total_invested| ≤
        agg.total_qty * (1 / 100)) := by
  obtain ⟨h1, h2, h3, h4⟩ := consolidateStocks_lookup_char stocks sym agg h
  refine ⟨h1, h2, h3, ?_, ?_, ?_⟩
  · intro hpos; rw [h4, if_pos hpos]
  · intro h0; rw [h4, h0]; simp
  · intro hpos
    rw [h4, if_pos hpos]
    have hb := abs_round2_sub_le (agg.total_invested / agg.total_qty)
    have hq : agg.total_qty ≠ 0 := ne_of_gt hpos
    have hsplit : round2 (agg.total_invested / agg.total_qty) * agg.total_qty
        - agg.total_invested
        = (round2 (agg.total_invested / agg.total_qty)
            - agg.total_invested / agg.total_qty) * agg.total_qty := by
      field_simp
    rw [hsplit, abs_mul, abs_of_pos hpos]
    have step : |round2 (agg.total_invested / agg.total_qty)
        - agg.total_invested / agg.total_qty| * agg.total_qty
        ≤ (1 / 200) * agg.total_qty :=
      mul_le_mul_of_nonneg_right hb (le_of_lt hpos)
    calc |round2 (agg.total_invested / agg.total_qty)
          - agg.total_invested / agg.total_qty| * agg.total_qty
        ≤ (1 / 200) * agg.total_qty := step
      _ ≤ agg.total_qty * (1 / 100) := by nlinarith [hpos]

/-- The two-broker RELIANCE example from the specification. -/
def c1Stocks : List StockHolding :=
  [{ symbol := "RELIANCE", quantity := 10, avg_price := 2500, invested := 25000,
     closing_price := 2800, closing_value := 28000, broker := "Groww" },
   { symbol := "RELIANCE", quantity := 5, avg_price := 2600, invested := 13000,
     closing_price := 2800, closing_value := 14000, broker := "Zerodha" }]

def c1Agg : StockAgg :=
  { symbol := "RELIANCE", total_qty := 15, total_invested := 38000,
    total_closing_value := 42000,
    brokers := [⟨"Groww", 10, 2500, 25000, 2800, 28000⟩,
                ⟨"Zerodha", 5, 2600, 13000, 2800, 14000⟩],
    blended_avg_price := 253333 / 100 }

/-- Witness for C1 at the specification's two-broker RELIANCE example:
quantity 15, invested 38000, blended average price 2533.33. -/
theorem stock_consolidation_correct_witness :
    klookup (fun a => a.symbol) (consolidateStocks c1Stocks) "RELIANCE" = some c1Agg ∧
    c1Agg.total_qty = ksum (fun s => s.symbol) (fun s => s.quantity) "RELIANCE" c1Stocks ∧
    c1Agg.total_invested
      = ksum (fun s => s.symbol) (fun s => s.invested) "RELIANCE" c1Stocks ∧
    c1Agg.total_closing_value
      = ksum (fun s => s.symbol) (fun s => s.closing_value) "RELIANCE" c1Stocks ∧
    (0 < c1Agg.total_qty →
      c1Agg.blended_avg_price = round2 (c1Agg.total_invested / c1Agg.total_qty)) ∧
    (c1Agg.total_qty = 0 → c1Agg.blended_avg_price = 0) ∧
    (0 < c1Agg.total_qty →
      |c1Agg.blended_avg_price * c1Agg.total_qty - c1Agg.total_invested| ≤
        c1Agg.total_qty * (1 / 100)) := by
  have h : klookup (fun a => a.symbol) (consolidateStocks c1Stocks) "RELIANCE"
      = some c1Agg := by
    norm_num [c1Stocks, c1Agg, consolidateStocks, updateStock, addLot, emptyAgg,
      blendStock, klookup, brokerLotOf, round2]
  exact ⟨h, stock_consolidation_correct c1Stocks "RELIANCE" c1Agg h⟩

/-! ## Association-list lemmas for the verdict map -/

theorem vlookup_cons (p : String × Verdict) (m : List (String × Verdict)) (t : String) :
    (p :: m).lookup t = if p.1 = t then some p.2 else m.lookup t := by
  rcases p with ⟨k, v⟩
  by_cases h : k = t
  · simp [List.lookup, h]
  · have h' : ¬ t = k := fun hc => h hc.symm
    have hb : (t == k) = false := by simp [h']
    simp [List.lookup, h, hb]

theorem vlookup_append_none {m1 : List (String × Verdict)} {t : String}
    (h : m1.lookup t = none) (m2 : List (String × Verdict)) :
    (m1 ++ m2).lookup t = m2.lookup t := by
  induction m1 with
  | nil => rfl
  | cons p m ih =>
    rw [vlookup_cons] at h
    by_cases hp : p.1 = t
    · rw [if_pos hp] at h; exact absurd h (by simp)
    · rw [if_neg hp] at h
      rw [List.cons_append, vlookup_cons, if_neg hp]
      exact ih h

theorem vlookup_append_some {m1 : List (String × Verdict)} {t : String} {v : Verdict}
    (h : m1.lookup t = some v) (m2 : List (String × Verdict)) :
    (m1 ++ m2).lookup t = some v := by
  induction m1 with
  | nil => exact absurd h (by simp)
  | cons p m ih =>
    rw [vlookup_cons] at h
    rw [List.cons_append, vlookup_cons]
    by_cases hp : p.1 = t
    · rw [if_pos hp] at h ⊢; exact h
    · rw [if_neg hp] at h ⊢; exact ih h

theorem vlookup_none_of_not_mem_keys {m : List (String × Verdict)} {t : String}
    (h : t ∉ m.map Prod.fst) : m.lookup t = none := by
  induction m with
  | nil => rfl
  | cons p m ih =>
    simp only [List.map_cons, List.mem_cons, not_or] at h
    rw [vlookup_cons, if_neg (fun hp => h.1 hp.symm)]
    exact ih h.2

theorem vlookup_map_replace_hit (m : List (String × Verdict)) (k : String) (v : Verdict)
    (h : m.any (fun kv => kv.1 == k) = true) :
    ((m.map fun kv => if kv.1 == k then (k, v) else kv).lookup k) = some v := by
  induction m with
  | nil => simp at h
  | cons p m ih =>
    by_cases hp : p.1 = k
    · have hhead : (fun kv : String × Verdict => if kv.1 == k then (k, v) else kv) p
          = (k, v) := by simp [hp]
      simp only [List.map_cons, hhead]
      rw [vlookup_cons, if_pos rfl]
    · have hhead : (fun kv : String × Verdict => if kv.1 == k then (k, v) else kv) p
          = p := by simp [hp]
      have hm : m.any (fun kv => kv.1 == k) = true := by
        rcases List.any_eq_true.mp h with ⟨x, hx, hpx⟩
        rcases List.mem_cons.mp hx with rfl | hx'
        · exact absurd (by simpa using hpx) hp
        · exact List.any_eq_true.mpr ⟨x, hx', hpx⟩
      simp only [List.map_cons, hhead]
      rw [vlookup_cons, if_neg hp]
      exact ih hm

theorem vlookup_map_replace_ne (m : List (String × Verdict)) (k : String) (v : Verdict)
    {t : String} (h : t ≠ k) :
    ((m.map fun kv => if kv.1 == k then (k, v) else kv).lookup t) = m.lookup t := by
  induction m with
  | nil => rfl
  | cons p m ih =>
    by_cases hp : p.1 = k
    · simp only [List.map_cons]
      rw [if_pos (by simp [hp]), vlookup_cons, vlookup_cons,
        if_neg (fun hc => h hc.symm), if_neg (by rw [hp]; exact fun hc => h hc.symm)]
      exact ih
    · simp only [List.map_cons]
      rw [if_neg (by simp [hp]), vlookup_cons, vlookup_cons]
      by_cases hpt : p.1 = t
      · rw [if_pos hpt, if_pos hpt]
      · rw [if_neg hpt, if_neg hpt]; exact ih

theorem vlookup_isSome_any (m : List (String × Verdict)) (t : String) :
    (m.lookup t).isSome = m.any fun kv => kv.1 == t := by
  induction m with
  | nil => rfl
  | cons p m ih =>
    rw [vlookup_cons, List.any_cons]
    by_cases hp : p.1 = t
    · simp [hp]
    · simp [hp, ih]

theorem lookup_setKey_self (m : List (String × Verdict)) (k : String) (v : Verdict) :
    (setKey m k v).lookup k = some v := by
  unfold setKey
  by_cases hany : m.any (fun kv => kv.1 == k)
  · rw [if_pos hany, vlookup_map_replace_hit m k v hany]
  · rw [if_neg hany]
    have hnone : m.lookup k = none := by
      have := vlookup_isSome_any m k
      rw [eq_false_of_ne_true hany] at this
      exact Option.not_isSome_iff_eq_none.mp (by simp [this])
    rw [vlookup_append_none hnone, vlookup_cons, if_pos rfl]

theorem lookup_setKey_ne (m : List (String × Verdict)) (k : String) (v : Verdict)
    {t : String} (h : t ≠ k) : (setKey m k v).lookup t = m.lookup t := by
  unfold setKey
  by_cases hany : m.any (fun kv => kv.1 == k)
  · rw [if_pos hany, vlookup_map_replace_ne m k v h]
  · rw [if_neg hany]
    cases hm : m.lookup t with
    | some w => rw [vlookup_append_some hm]
    | none =>
      rw [vlookup_append_none hm, vlookup_cons, if_neg (fun hc => h hc.symm)]
      rfl

theorem lookup_setKey_isSome (m : List (String × Verdict)) (k : String) (v : Verdict)
    {t : String} (h : (m.lookup t).isSome) : ((setKey m k v).lookup t).isSome := by
  by_cases ht : t = k
  · subst ht; rw [lookup_setKey_self]; rfl
  · rw [lookup_setKey_ne m k v ht]; exact h

theorem lookup_foldl_setKey_not_mem (cfg : List (String × Verdict)) (t : String)
    (h : cfg.lookup t = none) :
    ∀ m, ((cfg.foldl (fun m kv => setKey m kv.1 kv.2) m).lookup t) = m.lookup t := by
  induction cfg with
  | nil => intro m; rfl
  | cons p rest ih =>
    intro m
    rw [vlookup_cons] at h
    by_cases hp : p.1 = t
    · rw [if_pos hp] at h; exact absurd h (by simp)
    · rw [if_neg hp] at h
      rw [List.foldl_cons, ih h, lookup_setKey_ne m p.1 p.2 (fun hc => hp hc.symm)]

theorem lookup_foldl_setKey_mem (cfg : List (String × Verdict)) (t : String) (v : Verdict)
    (hnd : (cfg.map Prod.fst).Nodup) (h : cfg.lookup t = some v) :
    ∀ m, ((cfg.foldl (fun m kv => setKey m kv.1 kv.2) m).lookup t) = some v := by
  induction cfg with
  | nil => intro m; exact absurd h (by simp)
  | cons p rest ih =>
    intro m
    rw [List.map_cons, List.nodup_cons] at hnd
    rw [vlookup_cons] at h
    by_cases hp : p.1 = t
    · rw [if_pos hp] at h
      have hrest : rest.lookup t = none :=
        vlookup_none_of_not_mem_keys (by rw [← hp]; exact hnd.1)
      rw [List.foldl_cons, lookup_foldl_setKey_not_mem rest t hrest]
      rw [show p.1 = t from hp, lookup_setKey_self]
      rw [← h]
    · rw [if_neg hp] at h
      rw [List.foldl_cons]
      exact ih hnd.2 h _

theorem lookup_foldl_setKey_isSome (cfg : List (String × Verdict)) (t : String) :
    ∀ m, (m.lookup t).isSome →
      ((cfg.foldl (fun m kv => setKey m kv.1 kv.2) m).lookup t).isSome := by
  induction cfg with
  | nil => intro m h; exact h
  | cons p rest ih =>
    intro m h
    rw [List.foldl_cons]
    exact ih _ (lookup_setKey_isSome m p.1 p.2 h)

theorem lookup_foldl_default_isSome (syms : List String) (t : String) :
    ∀ m : List (String × Verdict), (m.lookup t).isSome →
      ((syms.foldl (fun m s => if (m.lookup s).isSome then m
          else m ++ [(s, defaultVerdict)]) m).lookup t) = m.lookup t := by
  induction syms with
  | nil => intro m _; rfl
  | cons s rest ih =>
    intro m h
    rw [List.foldl_cons]
    by_cases hs : (m.lookup s).isSome
    · rw [if_pos hs]; exact ih m h
    · rw [if_neg hs]
      have hst : s ≠ t := fun hc => hs (by rw [hc]; exact h)
      obtain ⟨w, hw⟩ := Option.isSome_iff_exists.mp h
      have happ : (m ++ [(s, defaultVerdict)]).lookup t = m.lookup t := by
        rw [vlookup_append_some hw, hw]
      rw [ih _ (by rw [happ]; exact h), happ]

theorem lookup_foldl_default_mem (syms : List String) (t : String) (hmem : t ∈ syms) :
    ∀ m : List (String × Verdict), m.lookup t = none →
      ((syms.foldl (fun m s => if (m.lookup s).isSome then m
          else m ++ [(s, defaultVerdict)]) m).lookup t) = some defaultVerdict := by
  induction syms with
  | nil => exact absurd hmem (by simp)
  | cons s rest ih =>
    intro m h
    rw [List.foldl_cons]
    by_cases hs : s = t
    · subst hs
      rw [if_neg (by rw [h]; simp)]
      have happ : (m ++ [(s, defaultVerdict)]).lookup s = some defaultVerdict := by
        rw [vlookup_append_none h, vlookup_cons, if_pos rfl]
      rw [lookup_foldl_default_isSome rest s _ (by rw [happ]; rfl), happ]
    · have hrest : t ∈ rest := by
        rcases List.mem_cons.mp hmem with hc | hc
        · exact absurd hc.symm hs
        · exact hc
      by_cases hsome : (m.lookup s).isSome
      · rw [if_pos hsome]; exact ih hrest m h
      · rw [if_neg hsome]
        have happ : (m ++ [(s, defaultVerdict)]).lookup t = none := by
          rw [vlookup_append_none h, vlookup_cons, if_neg hs]; rfl
        exact ih hrest _ happ

/-- C2: the verdict map of a fresh consolidation starts from the stored
map (every stored key survives, and a stored verdict is preserved
verbatim when configuration does not override it), configuration wins
over stored, and every consolidated stock symbol still absent receives
exactly the default annotation `HOLD / Medium / Other` with all numeric
targets zero. -/
theorem verdict_map_correct (existingV configV : List (String × Verdict))
    (nonEquity : List (String × ℚ)) (results : List ParseResult) (k : String) :
    (∀ v, existingV.lookup k = some v → configV.lookup k = none →
      ((consolidate existingV configV nonEquity results).stock_verdicts.lookup k)
        = some v) ∧
    ((existingV.lookup k).isSome →
      (((consolidate existingV configV nonEquity results).stock_verdicts.lookup k)).isSome) ∧
    (∀ v, (configV.map Prod.fst).Nodup → configV.lookup k = some v →
      ((consolidate existingV configV nonEquity results).stock_verdicts.lookup k)
        = some v) ∧
    (k ∈ (consolidate existingV configV nonEquity results).stocks.map (fun a => a.symbol) →
      existingV.lookup k = none → configV.lookup k = none →
      ((consolidate existingV configV nonEquity results).stock_verdicts.lookup k)
        = some defaultVerdict) := by
  have hsv : (consolidate existingV configV nonEquity results).stock_verdicts =
      buildVerdicts existingV configV
        ((consolidateStocks (allStocks results)).map (fun a => a.symbol)) := rfl
  have hst : (consolidate existingV configV nonEquity results).stocks =
      consolidateStocks (allStocks results) := rfl
  rw [hsv, hst]
  unfold buildVerdicts
  refine ⟨?_, ?_, ?_, ?_⟩
  · intro v hex hcfg
    have h1 := lookup_foldl_setKey_not_mem configV k hcfg existingV
    rw [hex] at h1
    rw [lookup_foldl_default_isSome _ k _ (by rw [h1]; rfl), h1]
  · intro hex
    have h1 := lookup_foldl_setKey_isSome configV k existingV hex
    obtain ⟨w, hw⟩ := Option.isSome_iff_exists.mp h1
    rw [lookup_foldl_default_isSome _ k _ h1]
    exact h1
  · intro v hnd hcfg
    have h1 := lookup_foldl_setKey_mem configV k v hnd hcfg existingV
    rw [lookup_foldl_default_isSome _ k _ (by rw [h1]; rfl), h1]
  · intro hmem hex hcfg
    have h1 := lookup_foldl_setKey_not_mem configV k hcfg existingV
    rw [hex] at h1
    exact lookup_foldl_default_mem _ k hmem _ h1

/-- The stored BUY verdict of the specification example. -/
def buyVerdict : Verdict := ⟨"BUY", "Low", "IT", 0, 0, 0, 0, 0, 0⟩

def c2Results : List ParseResult :=
  [{ stocks := [{ symbol := "TCS", quantity := 1 }, { symbol := "INFY", quantity := 2 }] }]

/-- Witness for C2: with a stored `TCS ↦ BUY` verdict, no configuration
overrides, and a run holding TCS and the new symbol INFY, the rebuilt map
keeps BUY for TCS and gives INFY exactly the default annotation. -/
theorem verdict_map_correct_witness :
    ([("TCS", buyVerdict)] : List (String × Verdict)).lookup "TCS" = some buyVerdict ∧
    "INFY" ∈ (consolidate [("TCS", buyVerdict)] [] [] c2Results).stocks.map
      (fun a => a.symbol) ∧
    (consolidate [("TCS", buyVerdict)] [] [] c2Results).stock_verdicts.lookup "TCS"
      = some buyVerdict ∧
    (consolidate [("TCS", buyVerdict)] [] [] c2Results).stock_verdicts.lookup "INFY"
      = some defaultVerdict := by
  have h1 : ([("TCS", buyVerdict)] : List (String × Verdict)).lookup "TCS"
      = some buyVerdict := by simp [List.lookup]
  have h2 : ([("TCS", buyVerdict)] : List (String × Verdict)).lookup "INFY" = none := by
    simp [List.lookup]
  have hmem : "INFY" ∈ (consolidate [("TCS", buyVerdict)] [] [] c2Results).stocks.map
      (fun a => a.symbol) := by
    simp +decide [c2Results, consolidate, consolidateStocks, allStocks, updateStock,
      addLot, emptyAgg, blendStock, brokerLotOf]
  exact ⟨h1, hmem,
    (verdict_map_correct [("TCS", buyVerdict)] [] [] c2Results "TCS").1 buyVerdict h1 rfl,
    (verdict_map_correct [("TCS", buyVerdict)] [] [] c2Results "INFY").2.2.2 hmem h2 rfl⟩

/-- C3 (amended): consolidating two lots of the same scheme sums
invested, current and units (invested and current rounded to two
decimals at the end), and the combined XIRR is the invested-weighted
average computed incrementally with rounding to two decimals at every
step: `round2 ((round2 x₁·i₁ + x₂·i₂) / (i₁+i₂))`.  The specification's
10000/20000, 10/16 example still yields exactly 14. -/
theorem mf_consolidation_two_lots (l1 l2 : MutualFundHolding)
    (hname : l2.name = l1.name) (h1 : 0 < l1.invested)
    (h12 : 0 < l1.invested + l2.invested) :
    mfConsolidate [l1, l2] = [{ l1 with
      invested := round2 (l1.invested + l2.invested),
      current := round2 (l1.current + l2.current),
      units := l1.units + l2.units,
      xirr := round2 ((round2 l1.xirr * l1.invested + l2.xirr * l2.invested)
        / (l1.invested + l2.invested)) }] ∧
    (mfConsolidate [ { name := "X", invested := 10000, xirr := 10 },
                     { name := "X", invested := 20000, xirr := 16 } ]).map (fun c => c.xirr)
      = [14] := by
  constructor
  · have hne : l1.invested ≠ 0 := ne_of_gt h1
    rcases l1 with ⟨n1, a1, c1, sc1, f1, i1, cu1, x1, u1, s1⟩
    rcases l2 with ⟨n2, a2, c2, sc2, f2, i2, cu2, x2, u2, s2⟩
    simp only at hname h1 h12 hne
    subst hname
    simp [mfConsolidate, mfInsert, mfUpdate, mfInit, h1, h12,
      mul_div_assoc, div_self hne]
  · norm_num [mfConsolidate, mfInsert, mfUpdate, mfInit, round2]

def mfCexA : MutualFundHolding := { name := "F", invested := 100, xirr := 1 / 250 }

def mfCexB : MutualFundHolding := { name := "F", invested := 100, xirr := 0 }

/-- C3 counterexample: for two same-scheme lots with invested 100 / 100
and xirr 0.004 / 0, the code's per-step-rounded consolidation reports a
combined XIRR of 0, while the exact invested-weighted average demanded
by the claim is 0.002 — the two differ. -/
theorem mf_weighted_xirr_cex :
    (mfConsolidate [mfCexA, mfCexB]).map (fun c => c.xirr) = [0] ∧
    mfWeightedXirr [mfCexA, mfCexB] = 1 / 500 ∧ ((0 : ℚ) ≠ 1 / 500) := by
  refine ⟨?_, ?_, by norm_num⟩
  · norm_num [mfCexA, mfCexB, mfConsolidate, mfInsert, mfUpdate, mfInit, round2]
  · norm_num [mfCexA, mfCexB, mfWeightedXirr]

def mfExA : MutualFundHolding := { name := "X", invested := 10000, xirr := 10 }

def mfExB : MutualFundHolding := { name := "X", invested := 20000, xirr := 16 }

/-- Witness for the amended C3 at the specification example. -/
theorem mf_consolidation_two_lots_witness :
    mfExB.name = mfExA.name ∧ (0 : ℚ) < mfExA.invested ∧
    (0 : ℚ) < mfExA.invested + mfExB.invested ∧
    mfConsolidate [mfExA, mfExB] = [{ mfExA with
      invested := round2 (mfExA.invested + mfExB.invested),
      current := round2 (mfExA.current + mfExB.current),
      units := mfExA.units + mfExB.units,
      xirr := round2 ((round2 mfExA.xirr * mfExA.invested + mfExB.xirr * mfExB.invested)
        / (mfExA.invested + mfExB.invested)) }] :=
  ⟨rfl, by norm_num [mfExA], by norm_num [mfExA, mfExB],
    (mf_consolidation_two_lots mfExA mfExB rfl (by norm_num [mfExA])
      (by norm_num [mfExA, mfExB])).1⟩

theorem mem_allStocks {s : StockHolding} {rs : List ParseResult} :
    s ∈ allStocks rs ↔ ∃ r ∈ rs, s ∈ r.stocks := by
  simp only [allStocks, List.mem_flatten, List.mem_map]
  constructor
  · rintro ⟨x, ⟨r, hr, rfl⟩, hs⟩
    exact ⟨r, hr, hs⟩
  · rintro ⟨r, hr, hs⟩
    exact ⟨r.stocks, ⟨r, hr, rfl⟩, hs⟩

/-- C4: an outcome with a non-empty error list is excluded from
consolidation — the run consolidates exactly the error-free outcomes, so
a symbol appears in the consolidated stocks exactly when some error-free
outcome holds it — and an error-free outcome is always kept, so one
adapter's failure never prevents the remaining adapters' outcomes from
being consolidated. -/
theorem errored_outcomes_excluded (existingV configV : List (String × Verdict))
    (nonEquity : List (String × ℚ)) (outcomes : List ParseResult) :
    selectResults outcomes = outcomes.filter (fun r => r.errors.isEmpty) ∧
    (∀ r ∈ outcomes, r.errors ≠ [] → r ∉ selectResults outcomes) ∧
    (∀ r ∈ outcomes, r.errors = [] → r ∈ selectResults outcomes) ∧
    parse_all_statements existingV configV nonEquity outcomes =
      consolidate existingV configV nonEquity
        (outcomes.filter (fun r => r.errors.isEmpty)) ∧
    (∀ sym, (klookup (fun a => a.symbol)
        (parse_all_statements existingV configV nonEquity outcomes).stocks sym).isSome ↔
      ∃ r ∈ outcomes, r.errors = [] ∧ ∃ s ∈ r.stocks, s.symbol = sym) := by
  have hsel : selectResults outcomes = outcomes.filter (fun r => r.errors.isEmpty) := by
    induction outcomes with
    | nil => rfl
    | cons r rest ih =>
      by_cases h : r.errors.isEmpty <;>
        simp [selectResults, List.filter_cons, h, ih]
  refine ⟨hsel, ?_, ?_, ?_, ?_⟩
  · intro r _ herr hmem
    rw [hsel] at hmem
    have := (List.mem_filter.mp hmem).2
    exact herr (by simpa using this)
  · intro r hr herr
    rw [hsel]
    exact List.mem_filter.mpr ⟨hr, by simp [herr]⟩
  · unfold parse_all_statements
    rw [hsel]
  · intro sym
    have hst : (parse_all_statements existingV configV nonEquity outcomes).stocks =
        consolidateStocks (allStocks (selectResults outcomes)) := rfl
    rw [hst, consolidateStocks_isSome, hsel]
    constructor
    · intro hany
      obtain ⟨s, hs, hps⟩ := List.any_eq_true.mp hany
      obtain ⟨r, hrmem, hsr⟩ := mem_allStocks.mp hs
      obtain ⟨hrout, hre⟩ := List.mem_filter.mp hrmem
      exact ⟨r, hrout, by simpa using hre, s, hsr, by simpa using hps⟩
    · rintro ⟨r, hrout, herr, s, hsr, hsym⟩
      refine List.any_eq_true.mpr ⟨s, ?_, by simpa using hsym⟩
      exact mem_allStocks.mpr ⟨r, List.mem_filter.mpr ⟨hrout, by simp [herr]⟩, hsr⟩

def c4Bad : ParseResult :=
  { stocks := [{ symbol := "BADCO", quantity := 7 }], errors := ["Cannot open file"] }

def c4Good : ParseResult := { stocks := [{ symbol := "GOODCO", quantity := 3 }] }

/-- Witness for C4: with one errored and one clean outcome, only the
clean one is selected; the errored outcome's symbol is absent from the
consolidated stocks while the clean outcome's symbol is present. -/
theorem errored_outcomes_excluded_witness :
    selectResults [c4Bad, c4Good] = [c4Bad, c4Good].filter (fun r => r.errors.isEmpty) ∧
    ¬ (klookup (fun a => a.symbol)
        (parse_all_statements [] [] [] [c4Bad, c4Good]).stocks "BADCO").isSome ∧
    (klookup (fun a => a.symbol)
        (parse_all_statements [] [] [] [c4Bad, c4Good]).stocks "GOODCO").isSome := by
  have h := errored_outcomes_excluded [] [] [] [c4Bad, c4Good]
  refine ⟨h.1, ?_, ?_⟩
  · intro habs
    rcases (h.2.2.2.2 "BADCO").mp habs with ⟨r, hr, herr, s, hs, hsym⟩
    rcases List.mem_cons.mp hr with rfl | hr2
    · simp [c4Bad] at herr
    · rcases List.mem_cons.mp hr2 with rfl | h0
      · rw [show s = { symbol := "GOODCO", quantity := 3 } by simpa [c4Good] using hs]
          at hsym
        simp at hsym
      · simp at h0
  · exact (h.2.2.2.2 "GOODCO").mpr
      ⟨c4Good, by simp, rfl, { symbol := "GOODCO", quantity := 3 }, by simp [c4Good], rfl⟩

def zRowDead : ZRow :=
  { symbol := some "DEADCO", qty := some 0, avg_price := some 100,
    closing_price := some 50 }

/-- C5 counterexample: the Zerodha adapter has no quantity check — a row
with quantity 0 produces a `StockHolding` with quantity 0 in its output,
so it is false that every stock adapter excludes rows with quantity ≤ 0. -/
theorem zerodha_emits_nonpositive_qty :
    (zerodhaParseRows [zRowDead]).map (fun h => (h.symbol, h.quantity))
      = [("DEADCO", 0)] ∧
    ¬ (∀ h ∈ zerodhaParseRows [zRowDead], 0 < h.quantity) := by
  have heval : (zerodhaParseRows [zRowDead]).map (fun h => (h.symbol, h.quantity))
      = [("DEADCO", 0)] := by decide
  refine ⟨heval, ?_⟩
  intro hall
  cases hl : zerodhaParseRows [zRowDead] with
  | nil => rw [hl] at heval; simp at heval
  | cons h t =>
    rw [hl] at heval
    simp only [List.map_cons, List.cons.injEq, Prod.mk.injEq] at heval
    have hq := hall h (by rw [hl]; exact List.mem_cons_self h t)
    rw [heval.1.2] at hq
    exact lt_irrefl 0 hq

/-- C5 (amended): the Upstox adapter (and the other CSV/XLSX stock
adapters except Zerodha and Groww) drops every row with quantity ≤ 0, so
each of its emitted holdings has strictly positive quantity; Zerodha and
Groww perform no such check. -/
theorem upstox_drops_nonpositive_qty (rows : List URow) :
    ∀ h ∈ upstoxParseRows rows, 0 < h.quantity := by
  intro h hmem
  obtain ⟨row, _, hf⟩ := List.mem_filterMap.mp hmem
  unfold upstoxRow at hf
  cases hraw : row.symbol_raw with
  | none => rw [hraw] at hf; simp at hf
  | some raw =>
    rw [hraw] at hf
    by_cases hq : row.qty ≤ 0
    · simp [hq] at hf
    · simp only [hq, if_false, Option.some.injEq] at hf
      have hq2 : h.quantity = row.qty := by rw [← hf]
      rw [hq2]
      exact lt_of_not_le hq

def uRowEx : URow := { symbol_raw := some "TCS", qty := 5, avg_price := 10, ltp := 12 }

def uHoldEx : StockHolding :=
  { symbol := upstoxNormalize "TCS", quantity := 5, avg_price := round2 10,
    invested := round2 (5 * 10), closing_price := round2 12,
    closing_value := round2 (5 * 12), broker := "Upstox" }

/-- Witness for the amended C5 at a concrete Upstox row. -/
theorem upstox_drops_nonpositive_qty_witness :
    uHoldEx ∈ upstoxParseRows [uRowEx] ∧ 0 < uHoldEx.quantity :=
  have hm : uHoldEx ∈ upstoxParseRows [uRowEx] := by
    norm_num [upstoxParseRows, upstoxRow, uRowEx, uHoldEx]
  ⟨hm, upstox_drops_nonpositive_qty [uRowEx] uHoldEx hm⟩

/-- C6 counterexample: on `"ABC-Z_EQ"` the code normalizes to `"ABC-Z"`
(the hyphen-suffix stripping runs before the `_EQ` stripping, so the
hyphen suffix uncovered by removing `_EQ` survives), while the
specification's described steps yield `"ABC"`. -/
theorem symbol_normalization_cex :
    upstoxNormalize "ABC-Z_EQ" = "ABC-Z" ∧ specNormalize "ABC-Z_EQ" = "ABC" ∧
    ("ABC-Z" : String) ≠ "ABC" := by decide

/-- C6 (amended): the Upstox pipeline uppercases, strips the short
hyphenated suffix (preserving `-RR`) first, then strips the text up to
the last `:` and one trailing `_EQ`; all four specification examples map
as claimed, and `"ABC-Z_EQ"` maps to `"ABC-Z"` because of the order.
The base normalizer shared by the other adapters performs only the
hyphen-suffix stripping. -/
theorem symbol_normalization_examples :
    upstoxNormalize "NSE:RELIANCE" = "RELIANCE" ∧
    upstoxNormalize "NSE_EQ:RELIANCE" = "RELIANCE" ∧
    upstoxNormalize "TATAPOWER_EQ" = "TATAPOWER" ∧
    upstoxNormalize "RAJESHEXPO-Z" = "RAJESHEXPO" ∧
    upstoxNormalize "EMBASSY-RR" = "EMBASSY-RR" ∧
    normalize_symbol "RAJESHEXPO-Z" = "RAJESHEXPO" ∧
    normalize_symbol "EMBASSY-RR" = "EMBASSY-RR" ∧
    normalize_symbol " SILVERBEES-E " = "SILVERBEES" ∧
    upstoxNormalize "ABC-Z_EQ" = "ABC-Z" := by decide

/-- C7 counterexample: during `save_portfolio` the target file passes
through the empty (truncated) state, which is neither the prior snapshot
nor the new one — the write is not atomic. -/
theorem save_not_atomic_cex :
    ¬ (∀ st ∈ fileStates "A" (save_portfolio_ops "B"), st = "A" ∨ st = "B") := by
  decide

/-- C7 (amended): `save_portfolio` opens the target file in write mode
(truncating it) and serializes into it directly; the file passes through
the states prior → "" → new, so the save ends with the new content but an
interruption after the truncation leaves neither the prior nor the new
snapshot on disk: the write is not atomic and the prior good snapshot is
not preserved until the new one is complete. -/
theorem save_portfolio_not_atomic (prior serialized : String)
    (hp : prior ≠ "") (hs : serialized ≠ "") :
    fileStates prior (save_portfolio_ops serialized) = [prior, "", serialized] ∧
    save_portfolio prior serialized = serialized ∧
    ∃ st ∈ fileStates prior (save_portfolio_ops serialized),
      st ≠ prior ∧ st ≠ serialized := by
  refine ⟨rfl, rfl, "", ?_, fun h => hp h.symm, fun h => hs h.symm⟩
  show ("" : String) ∈ [prior, "", serialized]
  exact List.mem_cons_of_mem _ (List.mem_cons_self _ _)

/-- Witness for the amended C7 at concrete contents. -/
theorem save_portfolio_not_atomic_witness :
    ("A" : String) ≠ "" ∧ ("B" : String) ≠ "" ∧
    (fileStates "A" (save_portfolio_ops "B") = ["A", "", "B"] ∧
     save_portfolio "A" "B" = "B" ∧
     ∃ st ∈ fileStates "A" (save_portfolio_ops "B"), st ≠ "A" ∧ st ≠ "B") :=
  ⟨by decide, by decide,
    save_portfolio_not_atomic "A" "B" (by decide) (by decide)⟩

theorem getLastD_nonneg {l : List ℚ} (h : ∀ x ∈ l, 0 ≤ x) :
    0 ≤ (l.getLast?).getD 0 := by
  cases hl : l.getLast? with
  | none => simp
  | some x =>
    obtain ⟨hne, hx⟩ := List.mem_getLast?_eq_getLast (show x ∈ l.getLast? by rw [hl]; rfl)
    simp only [Option.getD_some]
    exact h x (hx ▸ List.getLast_mem hne)

theorem headD_nonneg {l : List ℚ} (h : ∀ x ∈ l, 0 ≤ x) : 0 ≤ l.headD 0 := by
  cases l with
  | nil => simp
  | cons a t => exact h a (List.mem_cons_self a t)

theorem epfoShares_nonneg (inp : EPFOInput)
    (hee : ∀ x ∈ inp.ee_matches, 0 ≤ x) (her : ∀ x ∈ inp.er_matches, 0 ≤ x)
    (hpn : ∀ x ∈ inp.pension_matches, 0 ≤ x) :
    0 ≤ (epfoShares inp).1 ∧ 0 ≤ (epfoShares inp).2.1 ∧ 0 ≤ (epfoShares inp).2.2 := by
  have hbase : (0:ℚ) ≤ (inp.ee_matches.getLast?).getD 0 ∧
      (0:ℚ) ≤ (inp.er_matches.getLast?).getD 0 ∧
      (0:ℚ) ≤ (inp.pension_matches.getLast?).getD 0 :=
    ⟨getLastD_nonneg hee, getLastD_nonneg her, getLastD_nonneg hpn⟩
  unfold epfoShares
  by_cases hc : ((inp.ee_matches.getLast?).getD 0 = 0 ∧ epfoTotal0 inp = 0)
  · rw [if_pos hc]
    cases hrow : inp.amount_rows.getLast? with
    | none => simpa using hbase
    | some t =>
      rcases t with ⟨a, b, c⟩
      simp only
      by_cases hf : 100 < a ∧ 100 < b ∧ 100 < c
      · rw [if_pos hf]
        refine ⟨le_of_lt ?_, le_of_lt ?_, le_of_lt ?_⟩
        · exact lt_trans (by norm_num) hf.1
        · exact lt_trans (by norm_num) hf.2.1
        · exact lt_trans (by norm_num) hf.2.2
      · rw [if_neg hf]
        exact hbase
  · rw [if_neg hc]
    exact hbase

/-- C9 counterexample: the EPFO closing-balance field is extracted with
`re.search`, which takes the FIRST match in document order, not the
last: with matches 500 then 900 the emitted holding reports 500, while
the claim's last-match rule demands 900. -/
theorem epfo_takes_first_closing_match :
    ((epfo_parse_pdf { closing_matches := [500, 900] }).1.map
      (fun h => h.total_balance)) = [500] ∧
    specLastMatch ({ closing_matches := [500, 900] } : EPFOInput).closing_matches = 900 ∧
    ((500 : ℚ) ≠ 900) := by
  refine ⟨?_, by norm_num [specLastMatch], by norm_num⟩
  norm_num [epfo_parse_pdf, epfoTotal, epfoTotal0, epfoShares]

/-- C9 (amended): the EPFO contribution-share fields take the last match
of their patterns and the tabular-row fallback takes the last 3-amount
row with every value above 100, but the closing balance (and interest,
identity and date fields) use `re.search` and take the first match, as
do all NPS fields — NPS scheme values require the first match to exceed
100 and the NPS total fallback takes the first value above 1000.  When
nothing plausible is found, both adapters return zero records together
with an explicit error, and an emitted holding always has a positive
balance / current value (given that the regex layer only produces
non-negative amounts). -/
theorem pdf_extraction_props (inp : EPFOInput)
    (hcl : ∀ x ∈ inp.closing_matches, 0 ≤ x)
    (hee : ∀ x ∈ inp.ee_matches, 0 ≤ x)
    (her : ∀ x ∈ inp.er_matches, 0 ≤ x)
    (hpn : ∀ x ∈ inp.pension_matches, 0 ≤ x) :
    (∀ h ∈ (epfo_parse_pdf inp).1, 0 < h.total_balance) ∧
    ((epfo_parse_pdf inp).1 = [] ↔ (epfo_parse_pdf inp).2 ≠ []) ∧
    (∀ ms v, npsTotalPick ms = some v → 1000 < v) ∧
    (∀ ms v, npsClassPick ms = some v → ms.head? = some v ∧ 100 < v) ∧
    (∀ pran tier ac date ms h, npsSchemeHolding pran tier ac date ms = some h →
      100 < h.current_value) ∧
    (∀ hs, (npsFinalize hs).1 = [] ↔ (npsFinalize hs).2 ≠ []) := by
  have hclass : ∀ ms v, npsClassPick ms = some v → ms.head? = some v ∧ 100 < v := by
    intro ms v hp
    cases ms with
    | nil => simp [npsClassPick] at hp
    | cons a t =>
      simp only [npsClassPick, List.head?_cons] at hp
      by_cases h100 : 100 < a
      · rw [if_pos h100] at hp
        obtain rfl := Option.some.inj hp
        exact ⟨rfl, h100⟩
      · rw [if_neg h100] at hp
        simp at hp
  refine ⟨?_, ?_, ?_, hclass, ?_, ?_⟩
  · intro h hmem
    by_cases hcond : 0 < epfoTotal inp ∨ 0 < (epfoShares inp).1
    · rw [epfo_parse_pdf, if_pos hcond] at hmem
      have hh : h.total_balance = epfoTotal inp := by
        rcases List.mem_cons.mp hmem with rfl | habs
        · rfl
        · simp at habs
      rw [hh]
      rcases hcond with hc | hc
      · exact hc
      · have hsh := epfoShares_nonneg inp hee her hpn
        unfold epfoTotal
        by_cases h0 : epfoTotal0 inp = 0
        · rw [if_pos h0]
          have h1 := hsh.2.1
          have h2 := hsh.2.2
          linarith
        · rw [if_neg h0]
          have : 0 ≤ epfoTotal0 inp := headD_nonneg hcl
          exact lt_of_le_of_ne this (Ne.symm h0)
    · rw [epfo_parse_pdf, if_neg hcond] at hmem
      simp at hmem
  · unfold epfo_parse_pdf
    by_cases hcond : 0 < epfoTotal inp ∨ 0 < (epfoShares inp).1
    · rw [if_pos hcond]; simp
    · rw [if_neg hcond]; simp
  · intro ms v hp
    have := List.find?_some hp
    exact of_decide_eq_true this
  · intro pran tier ac date ms h hp
    unfold npsSchemeHolding at hp
    cases hpick : npsClassPick ms with
    | none => rw [hpick] at hp; simp at hp
    | some v =>
      rw [hpick] at hp
      obtain rfl := Option.some.inj hp
      exact (hclass ms v hpick).2
  · intro hs
    unfold npsFinalize
    by_cases he : hs.isEmpty
    · rw [if_pos he]
      simp [List.isEmpty_iff.mp he]
    · rw [if_neg he]
      simpa using List.isEmpty_iff.not.mp he

def epfoW : EPFOInput := { ee_matches := [200, 300], er_matches := [400] }

/-- Witness for the amended C9: a passbook whose employee-share pattern
matches 200 then 300 and whose employer-share pattern matches 400 yields
one holding with employee share 300 (the last match), total balance 700,
and the theorem certifies its positivity. -/
theorem pdf_extraction_props_witness :
    (∀ x ∈ epfoW.closing_matches, (0:ℚ) ≤ x) ∧
    (∀ x ∈ epfoW.ee_matches, (0:ℚ) ≤ x) ∧
    (∀ x ∈ epfoW.er_matches, (0:ℚ) ≤ x) ∧
    (∀ x ∈ epfoW.pension_matches, (0:ℚ) ≤ x) ∧
    ((epfo_parse_pdf epfoW).1.map
      (fun h => (h.employee_share, h.employer_share, h.total_balance))
        = [(300, 400, 700)]) ∧
    (∀ h ∈ (epfo_parse_pdf epfoW).1, 0 < h.total_balance) := by
  have h1 : ∀ x ∈ epfoW.closing_matches, (0:ℚ) ≤ x := by simp [epfoW]
  have h2 : ∀ x ∈ epfoW.ee_matches, (0:ℚ) ≤ x := by norm_num [epfoW]
  have h3 : ∀ x ∈ epfoW.er_matches, (0:ℚ) ≤ x := by norm_num [epfoW]
  have h4 : ∀ x ∈ epfoW.pension_matches, (0:ℚ) ≤ x := by simp [epfoW]
  refine ⟨h1, h2, h3, h4, ?_, (pdf_extraction_props epfoW h1 h2 h3 h4).1⟩
  norm_num [epfo_parse_pdf, epfoTotal, epfoTotal0, epfoShares, epfoW]

/-- C10: in every consolidated US aggregate the `total_invested_usd`
field equals 0 — the engine initializes it to zero and never adds the
per-lot `invested_usd`, even when inputs carry non-zero values; only
quantity and `value_usd` are summed. -/
theorem us_invested_usd_zero (existingV configV : List (String × Verdict))
    (nonEquity : List (String × ℚ)) (rs : List ParseResult) (sym : String) (agg : USAgg)
    (h : klookup (fun a => a.symbol)
      ((consolidate existingV configV nonEquity rs).us_holdings) sym = some agg) :
    agg.total_invested_usd = 0 ∧
    agg.total_qty = ksum (fun u => u.symbol) (fun u => u.quantity) sym (allUS rs) ∧
    agg.total_value_usd = ksum (fun u => u.symbol) (fun u => u.value_usd) sym (allUS rs) := by
  have hus : (consolidate existingV configV nonEquity rs).us_holdings
      = consolidateUS (allUS rs) := rfl
  rw [hus] at h
  exact consolidateUS_lookup_char (allUS rs) sym agg h

def usLot : USHolding :=
  { symbol := "MSFT", quantity := 4, invested_usd := 999, value_usd := 1200,
    source := "Fidelity" }

def c10Results : List ParseResult := [{ us_holdings := [usLot] }]

def usAggEx : USAgg :=
  { symbol := "MSFT", name := "", total_qty := 4, total_invested_usd := 0,
    total_value_usd := 1200, sources := [⟨"Fidelity", 4, 1200⟩] }

/-- Witness for C10: a US lot with `invested_usd = 999` consolidates to
an aggregate whose `total_invested_usd` is 0. -/
theorem us_invested_usd_zero_witness :
    klookup (fun a => a.symbol) ((consolidate [] [] [] c10Results).us_holdings) "MSFT"
      = some usAggEx ∧
    usAggEx.total_invested_usd = 0 ∧
    usAggEx.total_qty
      = ksum (fun u => u.symbol) (fun u => u.quantity) "MSFT" (allUS c10Results) ∧
    usAggEx.total_value_usd
      = ksum (fun u => u.symbol) (fun u => u.value_usd) "MSFT" (allUS c10Results) := by
  have h : klookup (fun a => a.symbol)
      ((consolidate [] [] [] c10Results).us_holdings) "MSFT" = some usAggEx := by
    norm_num [consolidate, consolidateUS, allUS, updateUS, addUS, klookup,
      c10Results, usLot, usAggEx]
  exact ⟨h, us_invested_usd_zero [] [] [] c10Results "MSFT" usAggEx h⟩

def mfOnlyA : ParseResult := { mutual_funds := [{ name := "A" }] }

def mfOnlyB : ParseResult := { mutual_funds := [{ name := "B" }] }

/-- C8 counterexample: permuting the outcome list permutes the
consolidated mutual-fund list — the two outputs are permutations but not
equal as ordered lists, so "the consolidated mutual-fund positions are
equal" fails as stated. -/
theorem consolidation_order_changes_lists :
    ([mfOnlyA, mfOnlyB] : List ParseResult).Perm [mfOnlyB, mfOnlyA] ∧
    (consolidate [] [] [] [mfOnlyA, mfOnlyB]).mutual_funds ≠
      (consolidate [] [] [] [mfOnlyB, mfOnlyA]).mutual_funds := by
  refine ⟨List.Perm.swap mfOnlyB mfOnlyA [], ?_⟩
  intro habs
  simp [consolidate, allMfs, mfRowOf, mfOnlyA, mfOnlyB] at habs

/-- C8 (amended): consolidation is commutative per entity kind up to
ordering: for permuted run-level outcome lists, the per-symbol stock
numbers (total quantity, invested, closing value, blended average price)
and the per-ticker US numbers (quantity, invested-USD, value-USD) are
equal, and the mutual-fund, NPS and EPFO lists are permutations of each
other (their order — like the per-broker breakdown lists — follows the
outcome order and may differ). -/
theorem consolidation_commutative (existingV configV : List (String × Verdict))
    (nonEquity : List (String × ℚ)) (rs1 rs2 : List ParseResult) (hp : rs1.Perm rs2) :
    (∀ sym, (klookup (fun a => a.symbol)
        ((consolidate existingV configV nonEquity rs1).stocks) sym).map
        (fun a => (a.total_qty, a.total_invested, a.total_closing_value,
          a.blended_avg_price)) =
      (klookup (fun a => a.symbol)
        ((consolidate existingV configV nonEquity rs2).stocks) sym).map
        (fun a => (a.total_qty, a.total_invested, a.total_closing_value,
          a.blended_avg_price))) ∧
    ((consolidate existingV configV nonEquity rs1).mutual_funds).Perm
      ((consolidate existingV configV nonEquity rs2).mutual_funds) ∧
    (∀ sym, (klookup (fun a => a.symbol)
        ((consolidate existingV configV nonEquity rs1).us_holdings) sym).map
        (fun a => (a.total_qty, a.total_invested_usd, a.total_value_usd)) =
      (klookup (fun a => a.symbol)
        ((consolidate existingV configV nonEquity rs2).us_holdings) sym).map
        (fun a => (a.total_qty, a.total_invested_usd, a.total_value_usd))) ∧
    ((consolidate existingV configV nonEquity rs1).nps_holdings).Perm
      ((consolidate existingV configV nonEquity rs2).nps_holdings) ∧
    ((consolidate existingV configV nonEquity rs1).epfo_holdings).Perm
      ((consolidate existingV configV nonEquity rs2).epfo_holdings) := by
  have hstocks : (allStocks rs1).Perm (allStocks rs2) := by
    unfold allStocks
    exact (hp.map (fun r => r.stocks)).flatten
  have hus : (allUS rs1).Perm (allUS rs2) := by
    unfold allUS
    exact (hp.map (fun r => r.us_holdings)).flatten
  refine ⟨?_, ?_, ?_, ?_, ?_⟩
  · intro sym
    have e1 : (consolidate existingV configV nonEquity rs1).stocks
        = consolidateStocks (allStocks rs1) := rfl
    have e2 : (consolidate existingV configV nonEquity rs2).stocks
        = consolidateStocks (allStocks rs2) := rfl
    rw [e1, e2]
    have hany := any_perm (fun s : StockHolding => s.symbol == sym) hstocks
    have hsame : (klookup (fun a => a.symbol) (consolidateStocks (allStocks rs1)) sym).isSome
        = (klookup (fun a => a.symbol) (consolidateStocks (allStocks rs2)) sym).isSome := by
      rw [consolidateStocks_isSome, consolidateStocks_isSome, hany]
    cases ha1 : klookup (fun a => a.symbol) (consolidateStocks (allStocks rs1)) sym with
    | none =>
      rw [ha1] at hsame
      have hx : (klookup (fun a => a.symbol)
          (consolidateStocks (allStocks rs2)) sym).isSome = false := by
        rw [← hsame]; rfl
      have : klookup (fun a => a.symbol) (consolidateStocks (allStocks rs2)) sym = none :=
        Option.not_isSome_iff_eq_none.mp (by simp [hx])
      rw [this]
    | some a1 =>
      rw [ha1] at hsame
      have h2some : (klookup (fun a => a.symbol)
          (consolidateStocks (allStocks rs2)) sym).isSome := by
        rw [← hsame]; rfl
      obtain ⟨a2, ha2⟩ := Option.isSome_iff_exists.mp h2some
      rw [ha2]
      obtain ⟨q1, i1, c1, b1⟩ := consolidateStocks_lookup_char _ sym a1 ha1
      obtain ⟨q2, i2, c2, b2⟩ := consolidateStocks_lookup_char _ sym a2 ha2
      have hq : a1.total_qty = a2.total_qty := by
        rw [q1, q2, ksum_perm (fun s : StockHolding => s.symbol)
          (fun s => s.quantity) sym hstocks]
      have hi : a1.total_invested = a2.total_invested := by
        rw [i1, i2, ksum_perm (fun s : StockHolding => s.symbol)
          (fun s => s.invested) sym hstocks]
      have hc : a1.total_closing_value = a2.total_closing_value := by
        rw [c1, c2, ksum_perm (fun s : StockHolding => s.symbol)
          (fun s => s.closing_value) sym hstocks]
      have hb : a1.blended_avg_price = a2.blended_avg_price := by
        rw [b1, b2, hq, hi]
      have : (a1.total_qty, a1.total_invested, a1.total_closing_value,
          a1.blended_avg_price) = (a2.total_qty, a2.total_invested,
          a2.total_closing_value, a2.blended_avg_price) := by
        rw [hq, hi, hc, hb]
      exact congrArg some this
  · show (allMfs rs1).Perm (allMfs rs2)
    unfold allMfs
    exact (hp.map (fun r => r.mutual_funds.map mfRowOf)).flatten
  · intro sym
    have e1 : (consolidate existingV configV nonEquity rs1).us_holdings
        = consolidateUS (allUS rs1) := rfl
    have e2 : (consolidate existingV configV nonEquity rs2).us_holdings
        = consolidateUS (allUS rs2) := rfl
    rw [e1, e2]
    have hany := any_perm (fun u : USHolding => u.symbol == sym) hus
    have hsame : (klookup (fun a => a.symbol) (consolidateUS (allUS rs1)) sym).isSome
        = (klookup (fun a => a.symbol) (consolidateUS (allUS rs2)) sym).isSome := by
      rw [consolidateUS_isSome, consolidateUS_isSome, hany]
    cases ha1 : klookup (fun a => a.symbol) (consolidateUS (allUS rs1)) sym with
    | none =>
      rw [ha1] at hsame
      have hx : (klookup (fun a => a.symbol)
          (consolidateUS (allUS rs2)) sym).isSome = false := by
        rw [← hsame]; rfl
      have : klookup (fun a => a.symbol) (consolidateUS (allUS rs2)) sym = none :=
        Option.not_isSome_iff_eq_none.mp (by simp [hx])
      rw [this]
    | some a1 =>
      rw [ha1] at hsame
      have h2some : (klookup (fun a => a.symbol)
          (consolidateUS (allUS rs2)) sym).isSome := by
        rw [← hsame]; rfl
      obtain ⟨a2, ha2⟩ := Option.isSome_iff_exists.mp h2some
      rw [ha2]
      obtain ⟨z1, q1, v1⟩ := consolidateUS_lookup_char _ sym a1 ha1
      obtain ⟨z2, q2, v2⟩ := consolidateUS_lookup_char _ sym a2 ha2
      have hq : a1.total_qty = a2.total_qty := by
        rw [q1, q2, ksum_perm (fun u : USHolding => u.symbol)
          (fun u => u.quantity) sym hus]
      have hv : a1.total_value_usd = a2.total_value_usd := by
        rw [v1, v2, ksum_perm (fun u : USHolding => u.symbol)
          (fun u => u.value_usd) sym hus]
      have : (a1.total_qty, a1.total_invested_usd, a1.total_value_usd)
          = (a2.total_qty, a2.total_invested_usd, a2.total_value_usd) := by
        rw [hq, hv, z1, z2]
      exact congrArg some this
  · show (allNPS rs1).Perm (allNPS rs2)
    unfold allNPS
    exact (hp.map (fun r => r.nps_holdings)).flatten
  · show (allEPFO rs1).Perm (allEPFO rs2)
    unfold allEPFO
    exact (hp.map (fun r => r.epfo_holdings)).flatten

/-- Witness for the amended C8 at a concrete two-outcome swap. -/
theorem consolidation_commutative_witness :
    ([mfOnlyA, mfOnlyB] : List ParseResult).Perm [mfOnlyB, mfOnlyA] ∧
    ((consolidate [] [] [] [mfOnlyA, mfOnlyB]).mutual_funds).Perm
      ((consolidate [] [] [] [mfOnlyB, mfOnlyA]).mutual_funds) :=
  ⟨List.Perm.swap mfOnlyB mfOnlyA [],
    (consolidation_commutative [] [] [] [mfOnlyA, mfOnlyB] [mfOnlyB, mfOnlyA]
      (List.Perm.swap mfOnlyB mfOnlyA [])).2.1⟩

end WealthPulse
